import Mathlib

set_option maxHeartbeats 1000000

/-!
Verification development for the Latin text analyzer (`navigium_scraper.py`,
`app.py`).  The Python source is shallowly embedded: pure string processing is
translated to Lean functions on `List Char`/`String`, the mutable in-memory
word cache becomes an explicitly threaded association list, the external
HTML-fetching boundary (`fetch_page` plus BeautifulSoup field extraction) is
abstracted as an environment function `Env : String → Except String Page`
mapping a request URL to either a transport failure (`requests.RequestException`
message) or the parsed page content the scraper reads, and the thread pool of
`analyze_text` is modelled by an explicit task-completion order threaded
sequentially through the shared cache.
-/

namespace Verbum

/-! ### Python string primitives -/

/-- Embedding of Python `str.lower` restricted to the alphabet this program
processes: ASCII letters, the German umlauts `ÄÖÜ` and the macron vowels
`ĀĒĪŌŪ` (the only non-ASCII letters in the tokenizer alphabet, the cache keys
and the URLs built by the scraper). Other characters are left unchanged. -/
def pyLowerChar (c : Char) : Char :=
  if 65 ≤ c.toNat ∧ c.toNat ≤ 90 then Char.ofNat (c.toNat + 32)
  else if c.toNat = 0xC4 then Char.ofNat 0xE4
  else if c.toNat = 0xD6 then Char.ofNat 0xF6
  else if c.toNat = 0xDC then Char.ofNat 0xFC
  else if c.toNat = 0x100 then Char.ofNat 0x101
  else if c.toNat = 0x112 then Char.ofNat 0x113
  else if c.toNat = 0x12A then Char.ofNat 0x12B
  else if c.toNat = 0x14C then Char.ofNat 0x14D
  else if c.toNat = 0x16A then Char.ofNat 0x16B
  else c

/-- Embedding of Python `text.lower()`. -/
def pyLower (s : String) : String := String.mk (s.data.map pyLowerChar)

/-- Character class of the tokenizer regex `[a-zA-ZäöüÄÖÜāēīōūĀĒĪŌŪ]`
(`analyze_text` line 362 and `api_word_frequency` line 129). -/
def isWordChar (c : Char) : Bool :=
  let n := c.toNat
  (97 ≤ n && n ≤ 122) || (65 ≤ n && n ≤ 90) ||
  n == 0xE4 || n == 0xF6 || n == 0xFC || n == 0xC4 || n == 0xD6 || n == 0xDC ||
  n == 0x101 || n == 0x113 || n == 0x12B || n == 0x14D || n == 0x16B ||
  n == 0x100 || n == 0x112 || n == 0x12A || n == 0x14C || n == 0x16A

/-- ASCII whitespace, embedding the `\s` class of `re` for the texts this
program handles (the non-breaking space has already been replaced by
`preprocess_text` before any `\s` split). -/
def isPySpace (c : Char) : Bool :=
  let n := c.toNat
  n == 32 || n == 9 || n == 10 || n == 11 || n == 12 || n == 13

/-- Maximal runs of characters satisfying `p`, in order; the accumulator holds
the current run reversed.  `runsAux p s.data []` embeds both
`re.findall(r'[class]+', s)` (with `p` the class test) and Python
`str.split()` (with `p` the complement of whitespace). -/
def runsAux (p : Char → Bool) : List Char → List Char → List String
  | [], acc => if acc.isEmpty then [] else [String.mk acc.reverse]
  | c :: cs, acc =>
    if p c then runsAux p cs (c :: acc)
    else if acc.isEmpty then runsAux p cs acc
    else String.mk acc.reverse :: runsAux p cs []

/-- Embedding of `re.findall(r'[a-zA-ZäöüÄÖÜāēīōūĀĒĪŌŪ]+', s)`. -/
def pyFindallWords (s : String) : List String := runsAux isWordChar s.data []

/-- Embedding of Python `s.split()` (split on whitespace runs, no empties). -/
def pySplitWs (s : String) : List String := runsAux (fun c => !(isPySpace c)) s.data []

/-- Unicode punctuation replacements of `preprocess_text` (curly quotes,
dashes, non-breaking space, ellipsis). -/
def replaceSmart (c : Char) : List Char :=
  let n := c.toNat
  if n = 0x2018 ∨ n = 0x2019 then [Char.ofNat 39]
  else if n = 0x201C ∨ n = 0x201D then [Char.ofNat 34]
  else if n = 0x2014 ∨ n = 0x2013 then [Char.ofNat 45]
  else if n = 0xA0 then [Char.ofNat 32]
  else if n = 0x2026 then [Char.ofNat 46, Char.ofNat 46, Char.ofNat 46]
  else [c]

/-- Control characters removed by `preprocess_text`
(`[\x00-\x08\x0b\x0c\x0e-\x1f\x7f-\x9f]`). -/
def isCtrlRemoved (c : Char) : Bool :=
  let n := c.toNat
  (n ≤ 8) || n == 11 || n == 12 || (14 ≤ n && n ≤ 31) || (127 ≤ n && n ≤ 159)

/-- Join tokens with single spaces; composing with `pySplitWs` embeds
`re.sub(r'\s+', ' ', s).strip()`. -/
def joinSpace : List String → List Char
  | [] => []
  | [t] => t.data
  | t :: ts => t.data ++ Char.ofNat 32 :: joinSpace ts

/-- Embedding of `preprocess_text`: smart-punctuation replacement, control
character removal, whitespace collapsing and trimming. -/
def preprocess_text (s : String) : String :=
  let s1 : List Char := s.data.flatMap replaceSmart
  let s2 : List Char := s1.filter (fun c => !(isCtrlRemoved c))
  String.mk (joinSpace (pySplitWs (String.mk s2)))

/-- Macron stripping of the `normalize` helper in `api_word_frequency`
(`ā→a, ē→e, ī→i, ō→o, ū→u` and the uppercase forms). -/
def stripMacronChar (c : Char) : Char :=
  let n := c.toNat
  if n = 0x101 then Char.ofNat 97
  else if n = 0x113 then Char.ofNat 101
  else if n = 0x12B then Char.ofNat 105
  else if n = 0x14D then Char.ofNat 111
  else if n = 0x16B then Char.ofNat 117
  else if n = 0x100 then Char.ofNat 65
  else if n = 0x112 then Char.ofNat 69
  else if n = 0x12A then Char.ofNat 73
  else if n = 0x14C then Char.ofNat 79
  else if n = 0x16A then Char.ofNat 85
  else c

/-- Embedding of the `normalize` helper of `api_word_frequency`: lowercase,
then strip macrons. -/
def normalize (s : String) : String :=
  String.mk ((pyLower s).data.map stripMacronChar)

/-! ### Scraper data model (`navigium_scraper.py`) -/

/-- Embedding of the result dictionary built by `parse_result_container` /
`lookup_word`.  `error = none` models the absence of the `'error'` key on
success records; `alternatives` holds the `(nr, lemma)` pairs collected for
multi-container pages. -/
structure LookupRecord where
  word_form : String
  nr : Nat
  «lemma» : Option String
  grammar : Option String
  translation : Option String
  alternatives : List (Nat × Option String)
  found : Bool
  word_matches : Bool
  error : Option String
  url : String
deriving DecidableEq, Repr

/-- Abstraction of one `div.umgebend` result container, holding exactly the
fields `parse_result_container` extracts from the HTML: `lemmaText` is the
cleaned `div.lemma > span` text with the `i.wortart` text appended (`none` if
the lemma span is missing), `underlinedLower` is the lowercased cleaned text
of the `u` tag in the first inner `div` that has one, `grammarText` is the
text after the first colon of that same `div`, and `translationText` is the
joined meaning list (or the comma-line fallback). -/
structure Container where
  lemmaText : Option String
  underlinedLower : Option String
  grammarText : Option String
  translationText : Option String
deriving DecidableEq, Repr

/-- Abstraction of a fetched page, holding what the two lookup functions read:
all `div.umgebend` containers in order, the subset of containers below the
`lat. Formen` header (in order), and the result of the grammar-pattern regex
fallback over the whole page text. -/
structure Page where
  containers : List Container
  formsContainers : List Container
  fallbackGrammar : Option String
deriving DecidableEq, Repr

/-- The external fetch boundary: `fetch_page` composed with the HTML field
extraction, mapping a URL to a parsed page or a transport failure
(`requests.RequestException` message). -/
abbrev Env : Type := String → Except String Page

/-- Values stored in the `word_cache` dict: a single result record (keys
`f"{word.lower()}_{nr}"`) or a list of records (keys `f"all_{word}"`). -/
inductive CacheValue where
  | single : LookupRecord → CacheValue
  | many : List LookupRecord → CacheValue
deriving DecidableEq, Repr

/-- The in-memory `word_cache` dict, as an association list; insertion conses
at the front and lookup takes the first (most recent) match, which agrees
with Python dict assignment/lookup. -/
abbrev Cache : Type := List (String × CacheValue)

/-- Dict membership/read: `word_cache[key]` guarded by `key in word_cache`. -/
def cacheFind (c : Cache) (k : String) : Option CacheValue :=
  (List.find? (fun p => p.1 == k) c).map (fun p => p.2)

/-- Dict write `word_cache[key] = v`. -/
def cacheInsert (c : Cache) (k : String) (v : CacheValue) : Cache := (k, v) :: c

def BASE_URL : String := "https://www.navigium.de/latein-woerterbuch"

/-- Cache key of the single lookup: `f"{word.lower()}_{nr}"`. -/
def singleKey (word : String) (nr : Nat) : String :=
  pyLower word ++ "_" ++ toString nr

/-- Cache key of the all-meanings lookup: `f"all_{word}"` (note: the raw word,
not lowercased). -/
def allKey (word : String) : String := "all_" ++ word

/-- Request URL of the single lookup: `f"{BASE_URL}/{word}?wb=gross&nr={nr}"`. -/
def urlSingle (word : String) (nr : Nat) : String :=
  BASE_URL ++ "/" ++ word ++ "?wb=gross&nr=" ++ toString nr

/-- Request URL of the all-meanings lookup: `f"{BASE_URL}/{word}?wb=gross"`. -/
def urlAll (word : String) : String := BASE_URL ++ "/" ++ word ++ "?wb=gross"

/-- Embedding of `parse_result_container` on the abstracted container:
`found` is set exactly when the lemma span exists, `word_matches` exactly when
the underlined word of the first `u`-div equals the lowercased search word. -/
def parse_result_container (c : Container) (word : String) (nr : Nat) : LookupRecord :=
  { word_form := word
    nr := nr
    «lemma» := c.lemmaText
    grammar := c.grammarText
    translation := c.translationText
    alternatives := []
    found := c.lemmaText.isSome
    word_matches := c.underlinedLower == some (pyLower word)
    error := none
    url := "" }

/-- The `found=false, error=<reason>` record built by `lookup_word`'s
`except requests.RequestException` handler. -/
def errorRecord (word : String) (nr : Nat) (e : String) : LookupRecord :=
  { word_form := word
    nr := nr
    «lemma» := none
    grammar := none
    translation := none
    alternatives := []
    found := false
    word_matches := false
    error := some e
    url := urlSingle word nr }

/-- Result of `lookup_word`'s fetch path on a successful page: the selected
container (index `min (nr-1) (len-1)`), the alternatives collected from the
other containers, or the whole-page grammar-pattern fallback when the page
has no containers. -/
def singleFetchResult (word : String) (nr : Nat) (page : Page) : LookupRecord :=
  if page.containers.isEmpty then
    { word_form := word
      nr := nr
      «lemma» := none
      grammar := page.fallbackGrammar
      translation := none
      alternatives := []
      found := page.fallbackGrammar.isSome
      word_matches := false
      error := none
      url := urlSingle word nr }
  else
    let index := min (nr - 1) (page.containers.length - 1)
    let base := parse_result_container
      (page.containers.getD index ⟨none, none, none, none⟩) word nr
    let alts : List (Nat × Option String) :=
      if page.containers.length > 1 then
        page.containers.enum.filterMap (fun p =>
          if p.1 = index then none
          else
            let a := parse_result_container p.2 word (p.1 + 1)
            if a.found then some (p.1 + 1, a.«lemma») else none)
      else []
    { base with url := urlSingle word nr, alternatives := alts }

/-- Embedding of `lookup_word`: cache hit returns the stored value unchanged;
on a miss the page is fetched, the result cached and returned; on a transport
failure the soft `found=false` error record is returned without caching. -/
def lookup_word (env : Env) (cache : Cache) (word : String) (nr : Nat := 1) :
    CacheValue × Cache :=
  match cacheFind cache (singleKey word nr) with
  | some v => (v, cache)
  | none =>
    match env (urlSingle word nr) with
    | Except.error e => (CacheValue.single (errorRecord word nr e), cache)
    | Except.ok page =>
      (CacheValue.single (singleFetchResult word nr page),
       cacheInsert cache (singleKey word nr)
         (CacheValue.single (singleFetchResult word nr page)))

/-- Interpreting a cached value as the list `lookup_word_all_meanings`
returns.  The `single` case models a shape collision between the two key
variants; it is unreachable for the caches this program builds (Python would
propagate the raw dict there). -/
def asMany : CacheValue → List LookupRecord
  | CacheValue.many l => l
  | CacheValue.single r => [r]

/-- Records parsed from the `lat. Formen` containers, each given the indexed
URL and empty alternatives, filtered to `found=true` — the loop body of
`lookup_word_all_meanings`. -/
def freshAll (word : String) (page : Page) : List LookupRecord :=
  (page.formsContainers.enum.map (fun p =>
    { parse_result_container p.2 word (p.1 + 1) with
        url := urlSingle word (p.1 + 1), alternatives := [] })).filter
    (fun r => r.found)

/-- Embedding of `lookup_word_all_meanings`: cache hit returns the stored
list; on a miss a successful fetch caches the filtered form records (an empty
list when the page has no `lat. Formen` containers) and returns them; a
transport failure returns `[]` without caching. -/
def lookup_word_all_meanings (env : Env) (cache : Cache) (word : String) :
    List LookupRecord × Cache :=
  match cacheFind cache (allKey word) with
  | some v => (asMany v, cache)
  | none =>
    match env (urlAll word) with
    | Except.error _ => ([], cache)
    | Except.ok page =>
      if page.formsContainers.isEmpty then
        ([], cacheInsert cache (allKey word) (CacheValue.many []))
      else
        (freshAll word page,
         cacheInsert cache (allKey word) (CacheValue.many (freshAll word page)))

/-! ### Concurrent resolution orchestrator (`analyze_text`) -/

/-- One entry of the `analyze_text` output list:
`{'word': w, 'meanings': rs, 'has_multiple': len(rs) > 1}`. -/
structure WordAnalysis where
  word : String
  meanings : List LookupRecord
  has_multiple : Bool
deriving DecidableEq, Repr

/-- The analysis of a full text, in first-occurrence token order. -/
abbrev TextAnalysis : Type := List WordAnalysis

/-- Deduplication loop of `analyze_text`: keep the first occurrence of each
token of length at least 2; `seen` accumulates the kept tokens. -/
def dedupAux : List String → List String → List String
  | [], _ => []
  | w :: ws, seen =>
    if w ∉ seen ∧ 2 ≤ w.length then w :: dedupAux ws (w :: seen)
    else dedupAux ws seen

/-- The full token sequence of `analyze_text`:
`re.findall(r'[letters]+', preprocess_text(text).lower())`. -/
def analyzeTokens (text : String) : List String :=
  pyFindallWords (pyLower (preprocess_text text))

/-- The `unique_words` list of `analyze_text`. -/
def uniqueWords (text : String) : List String :=
  dedupAux (analyzeTokens text) []

/-- Embedding of `lookup_word_wrapper`: in all-meanings mode the word's full
record list; in single mode a singleton of the `nr=1` record if it was found,
else the empty list.  `none` models the task raising an exception (in Python a
cached list under a single-lookup key would make `result.get('found')` raise
`AttributeError`, which `analyze_text` catches and swallows). -/
def lookup_word_wrapper (env : Env) (fetch_all : Bool) (cache : Cache) (w : String) :
    Option (List LookupRecord) × Cache :=
  if fetch_all then
    let r := lookup_word_all_meanings env cache w
    (some r.1, r.2)
  else
    match lookup_word env cache w 1 with
    | (CacheValue.single r, c1) => (some (if r.found then [r] else []), c1)
    | (CacheValue.many _, c1) => (none, c1)

/-- The `results_dict` insertion step of `analyze_text`'s collection loop:
a completed task's `(word, results)` is added when its result list is truthy
(non-empty); a failed task (`none`) contributes nothing. -/
def addTask (w : String) (res : Option (List LookupRecord))
    (rest : List (String × List LookupRecord)) :
    List (String × List LookupRecord) :=
  match res with
  | some l => if l.isEmpty then rest else (w, l) :: rest
  | none => rest

/-- The task loop of `analyze_text`, executed in task-completion order
`order`: each completed task contributes to `results_dict` via `addTask`.
The shared cache is threaded through the tasks sequentially (a linearization
of the thread pool's interleaving; each task only reads and writes its own
word's key). -/
def runTasks (env : Env) (fetch_all : Bool) :
    List String → Cache → List (String × List LookupRecord) × Cache
  | [], c => ([], c)
  | w :: ws, c =>
    (addTask w (lookup_word_wrapper env fetch_all c w).1
       (runTasks env fetch_all ws (lookup_word_wrapper env fetch_all c w).2).1,
     (runTasks env fetch_all ws (lookup_word_wrapper env fetch_all c w).2).2)

/-- Lookup in `results_dict`. -/
def dictFind (d : List (String × List LookupRecord)) (w : String) :
    Option (List LookupRecord) :=
  (List.find? (fun p => p.1 == w) d).map (fun p => p.2)

/-- Embedding of `analyze_text`: preprocess and tokenize, deduplicate, run all
lookup tasks (in completion order `order`, a permutation of `unique_words`),
then reassemble the results in the original first-occurrence order, keeping
only words present in `results_dict`. -/
def analyze_text (env : Env) (order : List String) (cache : Cache) (text : String)
    (fetch_all_meanings : Bool := true) : TextAnalysis × Cache :=
  ((uniqueWords text).filterMap (fun w =>
      match dictFind (runTasks env fetch_all_meanings order cache).1 w with
      | some l => some { word := w, meanings := l, has_multiple := decide (1 < l.length) }
      | none => none),
   (runTasks env fetch_all_meanings order cache).2)

/-! ### Application layer (`app.py`) -/

/-- Server-side state of the Flask app: the `ANALYSIS_CACHE` dict plus the
scraper module's `word_cache`. -/
structure AppState where
  analysisCache : List (String × TextAnalysis)
  wordCache : Cache
deriving DecidableEq

/-- Content fingerprint of `get_text_hash`.  SHA-256 is modelled as the
identity on the normalized text: it is deterministic and injective on the
inputs considered here, and no claim concerns hash collisions. -/
def get_text_hash (text : String) : String := text

/-- Lookup in `ANALYSIS_CACHE`. -/
def analysisFind (ac : List (String × TextAnalysis)) (h : String) :
    Option TextAnalysis :=
  (List.find? (fun p => p.1 == h) ac).map (fun p => p.2)

/-- Response body of `/api/analyze`. -/
structure AnalyzeResponse where
  original_text : String
  word_count : Nat
  results : TextAnalysis
deriving DecidableEq

/-- Embedding of `api_analyze`: validate, preprocess, consult
`ANALYSIS_CACHE` by content fingerprint, else run `analyze_text` and store
the result.  `Except.error` models a 400 response. -/
def api_analyze (env : Env) (order : List String) (st : AppState)
    (body : Option String) : Except String AnalyzeResponse × AppState :=
  match body with
  | none => (Except.error "Kein Text angegeben", st)
  | some raw =>
    let text := preprocess_text raw
    if text = "" then (Except.error "Text ist leer", st)
    else
      let h := get_text_hash text
      match analysisFind st.analysisCache h with
      | some results =>
        (Except.ok { original_text := text, word_count := results.length, results := results }, st)
      | none =>
        let r := analyze_text env order st.wordCache text true
        (Except.ok { original_text := text, word_count := r.1.length, results := r.1 },
         { analysisCache := (h, r.1) :: st.analysisCache, wordCache := r.2 })

/-! ### Lemma resolver and frequency aggregator (`api_word_frequency`) -/

/-- Lemma extraction from a meaning list: for each record whose `lemma` field
is truthy (present and non-empty), the normalized first whitespace-delimited
token of the lemma string.  The `[]` branch of the inner match models a lemma
consisting only of whitespace, on which Python would raise `IndexError`; such
a lemma is unreachable for records built by this program (lemma strings are
whitespace-collapsed and the branch is guarded by non-emptiness). -/
def lemmasOfMeanings (ms : List LookupRecord) : Finset String :=
  ms.foldl (fun s m =>
    match m.«lemma» with
    | some l =>
      if l ≠ "" then
        match pySplitWs l with
        | t :: _ => insert (normalize t) s
        | [] => s
      else s
    | none => s) ∅

/-- Python truthiness of `cached_analysis`: present and non-empty. -/
def analysisTruthy : Option TextAnalysis → Bool
  | some l => !l.isEmpty
  | none => false

/-- Provider path of `get_lemmas`: fetch all meanings of the lowercased word,
collect the normalized first lemma tokens and add the normalized word
itself. -/
def get_lemmas_fresh (env : Env) (cache : Cache) (word : String) :
    Finset String × Cache :=
  (insert (normalize word)
     (lemmasOfMeanings (lookup_word_all_meanings env cache (pyLower word)).1),
   (lookup_word_all_meanings env cache (pyLower word)).2)

/-- Embedding of the `get_lemmas` helper of `api_word_frequency`: when a
cached analysis is available and contains an entry whose word equals the
input word exactly (no case normalization on this comparison), derive the
lemma set from that entry; otherwise fall through to the provider path. -/
def get_lemmas (env : Env) (cachedA : Option TextAnalysis) (cache : Cache)
    (word : String) : Finset String × Cache :=
  if analysisTruthy cachedA then
    match (cachedA.getD []).find? (fun item => item.word == word) with
    | some item => (insert (normalize word) (lemmasOfMeanings item.meanings), cache)
    | none => get_lemmas_fresh env cache word
  else get_lemmas_fresh env cache word

/-- The per-token lemma memo `text_word_lemmas_cache`, as an association
list. -/
abbrev Memo : Type := List (String × Finset String)

/-- Memo lookup. -/
def memoFind (m : Memo) (w : String) : Option (Finset String) :=
  (List.find? (fun p => p.1 == w) m).map (fun p => p.2)

/-- Initial memo contents: one entry per item of the cached analysis (when it
is truthy), mapping the item's word to its analysis-derived lemma set.
Python fills a dict in item order (last duplicate wins); the association list
keeps the first match, which coincides for analyses without duplicate words —
the only analyses this program produces. -/
def initMemo (cachedA : Option TextAnalysis) : Memo :=
  if analysisTruthy cachedA then
    (cachedA.getD []).map (fun item =>
      (item.word, insert (normalize item.word) (lemmasOfMeanings item.meanings)))
  else []

/-- One frequency result of `api_word_frequency`'s `word_data`. -/
structure FreqEntry where
  search_word : String
  lemmas : Finset String
  positions : List Nat
  count : Nat
deriving DecidableEq

/-- Response body of `/api/word-frequency`. -/
structure FrequencyResponse where
  total_words : Nat
  word_data : List FreqEntry
deriving DecidableEq

/-- The per-token lemma resolution step of the scan: a memo hit returns the
memoized set unchanged, a miss computes the token's lemma set via
`get_lemmas` and memoizes it. -/
def resolveTok (env : Env) (cachedA : Option TextAnalysis) (memo : Memo)
    (c : Cache) (t : String) : Finset String × Memo × Cache :=
  match memoFind memo t with
  | some s => (s, memo, c)
  | none =>
    ((get_lemmas env cachedA c t).1,
     (t, (get_lemmas env cachedA c t).1) :: memo,
     (get_lemmas env cachedA c t).2)

/-- The position scan of `api_word_frequency`: walk the full token sequence
with 1-based index `i`, resolving each token's lemma set through the memo
(computing and memoizing it on a miss), and record `i` when it intersects the
search word's lemma set. -/
def scanTokens (env : Env) (cachedA : Option TextAnalysis)
    (searchLemmas : Finset String) :
    List String → Nat → Memo → Cache → List Nat × Memo × Cache
  | [], _, memo, c => ([], memo, c)
  | t :: ts, i, memo, c =>
    ((if (searchLemmas ∩ (resolveTok env cachedA memo c t).1).Nonempty
      then i :: (scanTokens env cachedA searchLemmas ts (i + 1)
          (resolveTok env cachedA memo c t).2.1
          (resolveTok env cachedA memo c t).2.2).1
      else (scanTokens env cachedA searchLemmas ts (i + 1)
          (resolveTok env cachedA memo c t).2.1
          (resolveTok env cachedA memo c t).2.2).1),
     (scanTokens env cachedA searchLemmas ts (i + 1)
        (resolveTok env cachedA memo c t).2.1
        (resolveTok env cachedA memo c t).2.2).2)

/-- The per-search-word loop of `api_word_frequency`: resolve the search
word's lemma set, scan the token sequence, emit the frequency entry. -/
def freqLoop (env : Env) (cachedA : Option TextAnalysis) (toks : List String) :
    List String → Memo → Cache → List FreqEntry × Memo × Cache
  | [], memo, c => ([], memo, c)
  | sw :: sws, memo, c =>
    ({ search_word := sw
       lemmas := (get_lemmas env cachedA c sw).1
       positions := (scanTokens env cachedA (get_lemmas env cachedA c sw).1
           toks 1 memo (get_lemmas env cachedA c sw).2).1
       count := (scanTokens env cachedA (get_lemmas env cachedA c sw).1
           toks 1 memo (get_lemmas env cachedA c sw).2).1.length } ::
       (freqLoop env cachedA toks sws
           (scanTokens env cachedA (get_lemmas env cachedA c sw).1
               toks 1 memo (get_lemmas env cachedA c sw).2).2.1
           (scanTokens env cachedA (get_lemmas env cachedA c sw).1
               toks 1 memo (get_lemmas env cachedA c sw).2).2.2).1,
     (freqLoop env cachedA toks sws
         (scanTokens env cachedA (get_lemmas env cachedA c sw).1
             toks 1 memo (get_lemmas env cachedA c sw).2).2.1
         (scanTokens env cachedA (get_lemmas env cachedA c sw).1
             toks 1 memo (get_lemmas env cachedA c sw).2).2.2).2)

/-- Embedding of `api_word_frequency`: validate, preprocess, look up a cached
analysis by content fingerprint, tokenize, initialize the per-token memo from
the cached analysis, then process each search word. -/
def api_word_frequency (env : Env) (st : AppState)
    (body : Option (String × List String)) :
    Except String FrequencyResponse × AppState :=
  match body with
  | none => (Except.error "Text und Suchwoerter erforderlich", st)
  | some (rawText, search_words) =>
    (Except.ok
      { total_words := (pyFindallWords (pyLower (preprocess_text rawText))).length
        word_data := (freqLoop env
            (analysisFind st.analysisCache (get_text_hash (preprocess_text rawText)))
            (pyFindallWords (pyLower (preprocess_text rawText)))
            search_words
            (initMemo (analysisFind st.analysisCache
              (get_text_hash (preprocess_text rawText))))
            st.wordCache).1 },
     { st with wordCache := (freqLoop env
            (analysisFind st.analysisCache (get_text_hash (preprocess_text rawText)))
            (pyFindallWords (pyLower (preprocess_text rawText)))
            search_words
            (initMemo (analysisFind st.analysisCache
              (get_text_hash (preprocess_text rawText))))
            st.wordCache).2.2 })

/-! ### Reference definitions used in the claim statements -/

/-- The cache key a resolution task touches: the all-meanings key in
all-meanings mode, the `nr=1` single key otherwise. -/
def taskKey (fetch_all : Bool) (w : String) : String :=
  if fetch_all then allKey w else singleKey w 1

/-- Canonical (completion-order-free) result of a single word's resolution
task, evaluated against the initial cache. -/
def canonTask (env : Env) (fetch_all : Bool) (c : Cache) (w : String) :
    Option (List LookupRecord) :=
  (lookup_word_wrapper env fetch_all c w).1

/-- Canonical `(word, records)` entry a word's task contributes to
`results_dict`, `none` when it contributes nothing. -/
def canonPair (env : Env) (fetch_all : Bool) (c : Cache) (w : String) :
    Option (String × List LookupRecord) :=
  match canonTask env fetch_all c w with
  | some l => if l.isEmpty then none else some (w, l)
  | none => none

/-- Canonical record list reassembly finds for a word, `none` when the word
is absent from `results_dict`. -/
def canonRes (env : Env) (fetch_all : Bool) (c : Cache) (w : String) :
    Option (List LookupRecord) :=
  match canonTask env fetch_all c w with
  | some l => if l.isEmpty then none else some l
  | none => none

/-- Canonical `WordAnalysis` contributed by a word, `none` when the word
produced no records (or its task failed). -/
def canonWA (env : Env) (fetch_all : Bool) (c : Cache) (w : String) :
    Option WordAnalysis :=
  (canonRes env fetch_all c w).map (fun l =>
    { word := w, meanings := l, has_multiple := decide (1 < l.length) })

/-- The lemma set the resolver assigns to a word, as a pure function of the
environment, the cached analysis and the initial word cache. -/
def specLemmas (env : Env) (cachedA : Option TextAnalysis) (c : Cache)
    (w : String) : Finset String :=
  (get_lemmas env cachedA c w).1

/-- Reference frequency entry for one search word, straight from the spec:
the positions are exactly the 1-based indices of tokens whose lemma set
intersects the search word's lemma set, the count is the number of
positions. -/
def freqSpec (env : Env) (cachedA : Option TextAnalysis) (c : Cache)
    (toks : List String) (sw : String) : FreqEntry :=
  let L := specLemmas env cachedA c sw
  let ps := (List.range toks.length).filterMap (fun j =>
    if (L ∩ specLemmas env cachedA c (toks.getD j "")).Nonempty
    then some (j + 1) else none)
  { search_word := sw, lemmas := L, positions := ps, count := ps.length }

/-- Well-formedness of the all-meanings entries of a word cache: every value
stored under an `all_` key is a record list all of whose records were found.
Every cache this program builds satisfies this (the all-meanings path only
ever stores `found=true`-filtered lists). -/
def AllWF (c : Cache) : Prop :=
  ∀ w v, cacheFind c (allKey w) = some v →
    ∃ l, v = CacheValue.many l ∧ ∀ r ∈ l, r.found = true

/-- No-duplicate-words invariant of a cached analysis (trivially true when no
analysis is cached). -/
def AnalysisNodup : Option TextAnalysis → Prop
  | some l => (l.map (fun wa => wa.word)).Nodup
  | none => True

/-- The canonical value an all-meanings cache miss computes (and, on fetch
success, stores): empty on transport failure or a form-less page, else the
found-filtered form records. -/
def allMissResult (env : Env) (y : String) : List LookupRecord :=
  match env (urlAll y) with
  | Except.error _ => []
  | Except.ok page => if page.formsContainers.isEmpty then [] else freshAll y page

/-- Evolution relation between an initial cache `c0` and a cache reachable
from it through all-meanings lookups for a fixed environment: every key is
either untouched or a fresh all-meanings entry holding its canonical value. -/
def EvolvedC (env : Env) (c0 c : Cache) : Prop :=
  ∀ k, cacheFind c k = cacheFind c0 k ∨
    (cacheFind c0 k = none ∧ ∃ y, k = allKey y ∧
      cacheFind c k = some (CacheValue.many (allMissResult env y)))

/-- Reference position scan: the 1-based positions (starting at `i`) of the
tokens whose resolver lemma set (with respect to the initial cache `c0`)
intersects `L`. -/
def specPositions (env : Env) (cachedA : Option TextAnalysis) (c0 : Cache)
    (L : Finset String) : List String → Nat → List Nat
  | [], _ => []
  | t :: ts, i =>
    if (L ∩ specLemmas env cachedA c0 t).Nonempty
    then i :: specPositions env cachedA c0 L ts (i + 1)
    else specPositions env cachedA c0 L ts (i + 1)

/-- Invariant of the per-token memo: every stored lemma set is the canonical
one the resolver computes from the initial cache. -/
def MemoOK (env : Env) (cachedA : Option TextAnalysis) (c0 : Cache)
    (memo : Memo) : Prop :=
  ∀ t S, memoFind memo t = some S → S = specLemmas env cachedA c0 t

/-! ### Concrete fixtures for witnesses and counterexamples -/

/-- A result container for the lemma `rosa`. -/
def contRosa : Container :=
  { lemmaText := some "rosa -ae f."
    underlinedLower := some "rosa"
    grammarText := some "Nom. Sg."
    translationText := some "die Rose" }

/-- A page whose only (form) container is `contRosa`. -/
def pageRosa : Page :=
  { containers := [contRosa], formsContainers := [contRosa], fallbackGrammar := none }

/-- A result container for the lemma `amāre` (with a macron vowel). -/
def contAmo : Container :=
  { lemmaText := some "amō 1"
    underlinedLower := some "amavit"
    grammarText := some "3. Pers. Sg. Perf. Ind. Akt."
    translationText := some "lieben" }

/-- A page whose only (form) container is `contAmo`. -/
def pageAmo : Page :=
  { containers := [contAmo], formsContainers := [contAmo], fallbackGrammar := none }

/-- An environment in which every request fails at the transport layer. -/
def envFail : Env := fun _ => Except.error "timeout"

/-- An environment in which every request succeeds with `pageRosa`. -/
def envAllRosa : Env := fun _ => Except.ok pageRosa

/-- An environment that answers only the all-meanings request for the exact
lowercase spelling `amavit`; any other URL fails. -/
def envCaseAll : Env := fun url =>
  if url = urlAll "amavit" then Except.ok pageAmo else Except.error "offline"

/-- An environment that answers only the single-lookup request for the exact
lowercase spelling `amavit`; any other URL fails. -/
def envCaseSingle : Env := fun url =>
  if url = urlSingle "amavit" 1 then Except.ok pageAmo else Except.error "offline"

/-- A found record for the word form `puella`. -/
def recPuella : LookupRecord :=
  { word_form := "puella", nr := 1, «lemma» := some "puella -ae", grammar := some "Nom. Sg."
    translation := some "Maedchen", alternatives := [], found := true
    word_matches := true, error := none, url := urlSingle "puella" 1 }

/-- A found record for the word form `puellam` (same lemma as `puella`). -/
def recPuellam : LookupRecord :=
  { word_form := "puellam", nr := 1, «lemma» := some "puella -ae", grammar := some "Akk. Sg."
    translation := some "Maedchen", alternatives := [], found := true
    word_matches := true, error := none, url := urlSingle "puellam" 1 }

/-- A cached single-lookup record for `amavit`. -/
def recAmavit : LookupRecord :=
  { word_form := "amavit", nr := 1, «lemma» := some "amō 1", grammar := some "Perf."
    translation := some "lieben", alternatives := [], found := true
    word_matches := true, error := none, url := urlSingle "amavit" 1 }

/-- The analysis entry for `puella`. -/
def waPuella : WordAnalysis :=
  { word := "puella", meanings := [recPuella], has_multiple := false }

/-- The analysis entry for `puellam`. -/
def waPuellam : WordAnalysis :=
  { word := "puellam", meanings := [recPuellam], has_multiple := false }

/-- A previously computed text analysis containing `puella` and `puellam`. -/
def anaPuella : TextAnalysis := [waPuella, waPuellam]

/-- A word cache holding a single-lookup entry for `amavit`, `nr=1`. -/
def cacheAmavit : Cache := [(singleKey "amavit" 1, CacheValue.single recAmavit)]

/-- An app state whose analysis session cache holds `anaPuella` for the text
`puella puellam rosa`. -/
def stFreq : AppState :=
  { analysisCache := [("puella puellam rosa", anaPuella)], wordCache := [] }

/-! ### Basic cache lemmas -/

theorem cacheFind_insert_self (c : Cache) (k : String) (v : CacheValue) :
    cacheFind (cacheInsert c k v) k = some v := by
  simp [cacheFind, cacheInsert]

theorem cacheFind_insert_ne (c : Cache) (k k' : String) (v : CacheValue)
    (h : k' ≠ k) : cacheFind (cacheInsert c k v) k' = cacheFind c k' := by
  have hne : (((k, v)).1 == k') = false := beq_eq_false_iff_ne.mpr (fun hh => h hh.symm)
  simp [cacheFind, cacheInsert, List.find?_cons, hne]

/-! ### C5: the lemma resolver always contains the normalized word itself -/

theorem get_lemmas_mem_self (env : Env) (cachedA : Option TextAnalysis)
    (c : Cache) (w : String) : normalize w ∈ (get_lemmas env cachedA c w).1 := by
  unfold get_lemmas get_lemmas_fresh
  split
  · split
    · exact Finset.mem_insert_self _ _
    · exact Finset.mem_insert_self _ _
  · exact Finset.mem_insert_self _ _

/-- C5: for every input word, the lemma set returned by `get_lemmas` contains
the normalized (lowercased, macron-stripped) form of the word itself and is
therefore never empty, in every environment, for every cached analysis and
every word cache — in particular also when the provider returns no match. -/
theorem c5_lemma_set_contains_self (env : Env) (cachedA : Option TextAnalysis)
    (c : Cache) (w : String) :
    normalize w ∈ (get_lemmas env cachedA c w).1 ∧
    (get_lemmas env cachedA c w).1.Nonempty :=
  ⟨get_lemmas_mem_self env cachedA c w,
   ⟨normalize w, get_lemmas_mem_self env cachedA c w⟩⟩

/-! ### C6: caching behaviour of the all-meanings lookup -/

/-- C6 counterexample: on a transport failure the all-meanings lookup returns
the empty list but stores nothing, so the returned value is not the value
cached under the `all` variant key afterwards (the key is absent). -/
theorem c6_counterexample :
    (lookup_word_all_meanings envFail [] "rosa").1 = [] ∧
    cacheFind (lookup_word_all_meanings envFail [] "rosa").2 (allKey "rosa") = none := by
  constructor <;> rfl

/-- C6 amended: after a cache miss, whenever the provider fetch itself
succeeds (including when it yields an empty record list), the result is
stored under the word's `all` variant key and the value returned is exactly
the value cached under that key afterwards; only a transport failure leaves
the cache without the key. -/
theorem c6_success_result_cached (env : Env) (c : Cache) (w : String) (page : Page)
    (hmiss : cacheFind c (allKey w) = none) (hok : env (urlAll w) = Except.ok page) :
    cacheFind (lookup_word_all_meanings env c w).2 (allKey w)
      = some (CacheValue.many (lookup_word_all_meanings env c w).1) := by
  simp only [lookup_word_all_meanings, hmiss, hok]
  split
  · exact cacheFind_insert_self _ _ _
  · exact cacheFind_insert_self _ _ _

theorem c6_success_result_cached_witness :
    cacheFind ([] : Cache) (allKey "amavit") = none ∧
    envCaseAll (urlAll "amavit") = Except.ok pageAmo ∧
    cacheFind (lookup_word_all_meanings envCaseAll [] "amavit").2 (allKey "amavit")
      = some (CacheValue.many (lookup_word_all_meanings envCaseAll [] "amavit").1) :=
  ⟨rfl, by rfl,
   c6_success_result_cached envCaseAll [] "amavit" pageAmo rfl (by rfl)⟩

/-! ### C7: soft failure of the single lookup -/

/-- C7: on a network/transport failure (and a cache miss, so that the
provider is actually consulted) the single lookup does not propagate the
failure: it returns the record with `found=false` and `error` set to the
failure reason. -/
theorem c7_lookup_word_soft_failure (env : Env) (c : Cache) (w : String)
    (nr : Nat) (e : String)
    (hmiss : cacheFind c (singleKey w nr) = none)
    (herr : env (urlSingle w nr) = Except.error e) :
    lookup_word env c w nr = (CacheValue.single (errorRecord w nr e), c) ∧
    (errorRecord w nr e).found = false ∧
    (errorRecord w nr e).error = some e := by
  refine ⟨?_, rfl, rfl⟩
  simp [lookup_word, hmiss, herr]

theorem c7_lookup_word_soft_failure_witness :
    cacheFind ([] : Cache) (singleKey "amavit" 1) = none ∧
    envFail (urlSingle "amavit" 1) = Except.error "timeout" ∧
    (lookup_word envFail [] "amavit" 1
        = (CacheValue.single (errorRecord "amavit" 1 "timeout"), []) ∧
      (errorRecord "amavit" 1 "timeout").found = false ∧
      (errorRecord "amavit" 1 "timeout").error = some "timeout") :=
  ⟨rfl, rfl, c7_lookup_word_soft_failure envFail [] "amavit" 1 "timeout" rfl rfl⟩

/-! ### C10: a transport failure leaves the word cache unchanged -/

/-- C10: when the single lookup hits a transport failure, the word cache is
left exactly as it was — the `found=false` error record is not written — so a
later call for the same key behaves as if the failing call never happened
(it queries the provider again rather than replaying the stored failure). -/
theorem c10_failure_not_cached (env : Env) (c : Cache) (w : String)
    (nr : Nat) (e : String)
    (hmiss : cacheFind c (singleKey w nr) = none)
    (herr : env (urlSingle w nr) = Except.error e) :
    (lookup_word env c w nr).2 = c ∧
    ∀ env2 : Env, lookup_word env2 (lookup_word env c w nr).2 w nr
      = lookup_word env2 c w nr := by
  have h2 : (lookup_word env c w nr).2 = c := by simp [lookup_word, hmiss, herr]
  exact ⟨h2, fun env2 => by rw [h2]⟩

theorem c10_failure_not_cached_witness :
    cacheFind ([] : Cache) (singleKey "amavit" 1) = none ∧
    envFail (urlSingle "amavit" 1) = Except.error "timeout" ∧
    ((lookup_word envFail [] "amavit" 1).2 = [] ∧
      ∀ env2 : Env, lookup_word env2 (lookup_word envFail [] "amavit" 1).2 "amavit" 1
        = lookup_word env2 [] "amavit" 1) :=
  ⟨rfl, rfl, c10_failure_not_cached envFail [] "amavit" 1 "timeout" rfl rfl⟩

/-! ### C1: case handling of cache keys, provider queries and results -/

/-- C1 counterexample: at the concrete word forms `Amavit` and `amavit` the
claim fails — the all-meanings cache keys differ (the `all_` key uses the
verbatim word), and because both lookup paths build the request URL from the
verbatim word, an environment that distinguishes the two URLs yields
different results for the two casings, for the all-meanings lookup as well as
for the single lookup. -/
theorem c1_counterexample :
    allKey "Amavit" ≠ allKey "amavit" ∧
    (lookup_word_all_meanings envCaseAll [] "Amavit").1 ≠
      (lookup_word_all_meanings envCaseAll [] "amavit").1 ∧
    (lookup_word envCaseSingle [] "Amavit" 1).1 ≠
      (lookup_word envCaseSingle [] "amavit" 1).1 := by
  refine ⟨by decide, by decide, by decide⟩

/-- C1 amended: only the single-lookup cache key is computed from the
lowercased word form, so two casings of the same word share that key: if one
casing's record is cached, looking up any other casing returns the identical
cached record (and consults no provider).  The all-meanings key and the
request URLs use the word verbatim, so distinct casings may produce distinct
provider queries and results (see the counterexample). -/
theorem c1_single_key_case_insensitive (env env2 : Env) (c : Cache)
    (w w2 : String) (nr : Nat) (v : CacheValue)
    (hlw : pyLower w = pyLower w2)
    (hc : cacheFind c (singleKey w nr) = some v) :
    singleKey w nr = singleKey w2 nr ∧
    lookup_word env c w nr = (v, c) ∧
    lookup_word env2 c w2 nr = (v, c) := by
  have hk : singleKey w nr = singleKey w2 nr := by simp [singleKey, hlw]
  refine ⟨hk, ?_, ?_⟩
  · simp [lookup_word, hc]
  · simp [lookup_word, ← hk, hc]

theorem c1_single_key_case_insensitive_witness :
    pyLower "Amavit" = pyLower "amavit" ∧
    cacheFind cacheAmavit (singleKey "Amavit" 1) = some (CacheValue.single recAmavit) ∧
    (singleKey "Amavit" 1 = singleKey "amavit" 1 ∧
      lookup_word envFail cacheAmavit "Amavit" 1 = (CacheValue.single recAmavit, cacheAmavit) ∧
      lookup_word envAllRosa cacheAmavit "amavit" 1 = (CacheValue.single recAmavit, cacheAmavit)) :=
  ⟨by decide, by decide,
   c1_single_key_case_insensitive envFail envAllRosa cacheAmavit "Amavit" "amavit" 1
     (CacheValue.single recAmavit) (by decide) (by decide)⟩

/-! ### C2: analysis reuse in the lemma resolver -/

/-- C2 counterexample: `get_lemmas` does not lowercase before comparing
against the cached analysis.  The lowercased form of the search word `Puella`
appears in the cached analysis, yet the result still depends on the provider
environment (two environments give different lemma sets), so a provider call
is issued for that word. -/
theorem c2_counterexample :
    pyLower "Puella" = "puella" ∧
    (∃ wa ∈ anaPuella, wa.word = pyLower "Puella") ∧
    (get_lemmas envFail (some anaPuella) [] "Puella").1 ≠
      (get_lemmas envAllRosa (some anaPuella) [] "Puella").1 := by
  refine ⟨by decide, by decide, by decide⟩

/-- C2 amended: the derivation from an existing analysis applies only when
the search word matches a `WordAnalysis` word exactly (case-sensitively) —
which, since analysis words are lowercase tokens, is the case exactly for
search words given in lowercase.  For such a word the lemma set is derived
from the analysis with no provider interaction: the result is independent
of the environment and the word cache is untouched. -/
theorem c2_exact_match_uses_no_provider (env env2 : Env) (l : TextAnalysis)
    (c : Cache) (w : String) (wa : WordAnalysis)
    (hmem : wa ∈ l) (hw : wa.word = w) :
    (get_lemmas env (some l) c w).2 = c ∧
    (get_lemmas env (some l) c w).1 = (get_lemmas env2 (some l) c w).1 := by
  have hne : l ≠ [] := by intro h; subst h; cases hmem
  have htru : analysisTruthy (some l) = true := by
    simp [analysisTruthy, hne]
  have hfind : (l.find? (fun item => item.word == w)).isSome := by
    rw [List.find?_isSome]
    exact ⟨wa, hmem, by simp [hw]⟩
  obtain ⟨item, hitem⟩ := Option.isSome_iff_exists.mp hfind
  refine ⟨?_, ?_⟩ <;> simp [get_lemmas, htru, hitem]

theorem c2_exact_match_uses_no_provider_witness :
    waPuella ∈ anaPuella ∧ waPuella.word = "puella" ∧
    ((get_lemmas envFail (some anaPuella) [] "puella").2 = [] ∧
      (get_lemmas envFail (some anaPuella) [] "puella").1 =
        (get_lemmas envAllRosa (some anaPuella) [] "puella").1) :=
  ⟨by decide, by decide,
   c2_exact_match_uses_no_provider envFail envAllRosa anaPuella [] "puella"
     waPuella (by decide) (by decide)⟩

/-! ### C8: idempotence of the analysis session cache -/

/-- C8: analyzing the same text twice is idempotent.  After any first call of
`api_analyze` on a text, a second call on the same text returns exactly the
same response and leaves the whole state unchanged, for every environment and
every task-completion order of the second call — i.e. the second analysis
issues no provider calls and is served from the analysis session cache by
content fingerprint. -/
theorem c8_analysis_cache_idempotent (env env2 : Env) (order order2 : List String)
    (st : AppState) (raw : String) :
    api_analyze env2 order2 (api_analyze env order st (some raw)).2 (some raw)
      = api_analyze env order st (some raw) := by
  simp only [api_analyze]
  by_cases ht : preprocess_text raw = ""
  · simp [ht]
  · simp only [if_neg ht]
    cases hfind : analysisFind st.analysisCache (get_text_hash (preprocess_text raw)) with
    | some results => simp [hfind, ht]
    | none =>
      simp only [hfind, ht, if_neg ht]
      simp [analysisFind, List.find?_cons]

/-! ### Character and token lemmas -/

theorem char_toNat_ofNat (n : Nat) (h : n < 55296) : (Char.ofNat n).toNat = n := by
  simp [Char.ofNat, Nat.isValidChar, h, Char.ofNatAux, Char.toNat, UInt32.toNat]

theorem pyLowerChar_idem (c : Char) : pyLowerChar (pyLowerChar c) = pyLowerChar c := by
  by_cases h1 : 65 ≤ c.toNat ∧ c.toNat ≤ 90
  · obtain ⟨d, hd⟩ : ∃ d, pyLowerChar c = d := ⟨_, rfl⟩
    have ht : d.toNat = c.toNat + 32 := by
      rw [← hd]
      unfold pyLowerChar
      rw [if_pos h1]
      exact char_toNat_ofNat _ (by omega)
    rw [hd]
    unfold pyLowerChar
    rw [if_neg (by rw [ht]; omega), if_neg (by rw [ht]; omega),
      if_neg (by rw [ht]; omega), if_neg (by rw [ht]; omega),
      if_neg (by rw [ht]; omega), if_neg (by rw [ht]; omega),
      if_neg (by rw [ht]; omega), if_neg (by rw [ht]; omega),
      if_neg (by rw [ht]; omega)]
  · by_cases h2 : c.toNat = 0xC4
    · have hv : pyLowerChar c = Char.ofNat 0xE4 := by
        unfold pyLowerChar; rw [if_neg h1, if_pos h2]
      rw [hv]; decide
    · by_cases h3 : c.toNat = 0xD6
      · have hv : pyLowerChar c = Char.ofNat 0xF6 := by
          unfold pyLowerChar; rw [if_neg h1, if_neg h2, if_pos h3]
        rw [hv]; decide
      · by_cases h4 : c.toNat = 0xDC
        · have hv : pyLowerChar c = Char.ofNat 0xFC := by
            unfold pyLowerChar; rw [if_neg h1, if_neg h2, if_neg h3, if_pos h4]
          rw [hv]; decide
        · by_cases h5 : c.toNat = 0x100
          · have hv : pyLowerChar c = Char.ofNat 0x101 := by
              unfold pyLowerChar
              rw [if_neg h1, if_neg h2, if_neg h3, if_neg h4, if_pos h5]
            rw [hv]; decide
          · by_cases h6 : c.toNat = 0x112
            · have hv : pyLowerChar c = Char.ofNat 0x113 := by
                unfold pyLowerChar
                rw [if_neg h1, if_neg h2, if_neg h3, if_neg h4, if_neg h5, if_pos h6]
              rw [hv]; decide
            · by_cases h7 : c.toNat = 0x12A
              · have hv : pyLowerChar c = Char.ofNat 0x12B := by
                  unfold pyLowerChar
                  rw [if_neg h1, if_neg h2, if_neg h3, if_neg h4, if_neg h5, if_neg h6,
                    if_pos h7]
                rw [hv]; decide
              · by_cases h8 : c.toNat = 0x14C
                · have hv : pyLowerChar c = Char.ofNat 0x14D := by
                    unfold pyLowerChar
                    rw [if_neg h1, if_neg h2, if_neg h3, if_neg h4, if_neg h5, if_neg h6,
                      if_neg h7, if_pos h8]
                  rw [hv]; decide
                · by_cases h9 : c.toNat = 0x16A
                  · have hv : pyLowerChar c = Char.ofNat 0x16B := by
                      unfold pyLowerChar
                      rw [if_neg h1, if_neg h2, if_neg h3, if_neg h4, if_neg h5, if_neg h6,
                        if_neg h7, if_neg h8, if_pos h9]
                    rw [hv]; decide
                  · have hv : pyLowerChar c = c := by
                      unfold pyLowerChar
                      rw [if_neg h1, if_neg h2, if_neg h3, if_neg h4, if_neg h5, if_neg h6,
                        if_neg h7, if_neg h8, if_neg h9]
                    rw [hv]; exact hv

theorem runsAux_chars (p : Char → Bool) (l : List Char) :
    ∀ (acc : List Char) (t : String), t ∈ runsAux p l acc →
      ∀ d ∈ t.data, d ∈ l ∨ d ∈ acc := by
  induction l with
  | nil =>
    intro acc t ht d hd
    unfold runsAux at ht
    split at ht
    · cases ht
    · rcases List.mem_singleton.mp ht with rfl
      exact Or.inr (List.mem_reverse.mp hd)
  | cons c cs ih =>
    intro acc t ht d hd
    unfold runsAux at ht
    split at ht
    · rcases ih (c :: acc) t ht d hd with h | h
      · exact Or.inl (List.mem_cons_of_mem _ h)
      · rcases List.mem_cons.mp h with rfl | h
        · exact Or.inl (List.mem_cons_self _ _)
        · exact Or.inr h
    · split at ht
      · rcases ih acc t ht d hd with h | h
        · exact Or.inl (List.mem_cons_of_mem _ h)
        · exact Or.inr h
      · rcases List.mem_cons.mp ht with rfl | h
        · exact Or.inr (List.mem_reverse.mp hd)
        · rcases ih [] t h d hd with h2 | h2
          · exact Or.inl (List.mem_cons_of_mem _ h2)
          · cases h2

theorem token_pyLower_fixed {s t : String} (ht : t ∈ pyFindallWords (pyLower s)) :
    pyLower t = t := by
  apply String.ext
  show t.data.map pyLowerChar = t.data
  have hfix : ∀ d ∈ t.data, pyLowerChar d = d := by
    intro d hd
    rcases runsAux_chars isWordChar (pyLower s).data [] t ht d hd with h | h
    · rcases List.mem_map.mp h with ⟨e, _, rfl⟩
      exact pyLowerChar_idem e
    · cases h
  calc t.data.map pyLowerChar = t.data.map id := List.map_congr_left hfix
    _ = t.data := List.map_id _

/-! ### Deduplication lemmas -/

theorem dedupAux_subset : ∀ (ws seen : List String), ∀ w ∈ dedupAux ws seen, w ∈ ws := by
  intro ws
  induction ws with
  | nil => intro seen w h; cases h
  | cons x xs ih =>
    intro seen w h
    unfold dedupAux at h
    split at h
    · rcases List.mem_cons.mp h with rfl | h
      · exact List.mem_cons_self _ _
      · exact List.mem_cons_of_mem _ (ih _ _ h)
    · exact List.mem_cons_of_mem _ (ih _ _ h)

theorem dedupAux_not_mem_seen :
    ∀ (ws seen : List String), ∀ w ∈ dedupAux ws seen, w ∉ seen := by
  intro ws
  induction ws with
  | nil => intro seen w h; cases h
  | cons x xs ih =>
    intro seen w h
    unfold dedupAux at h
    split at h
    · rename_i hcond
      rcases List.mem_cons.mp h with rfl | h
      · exact hcond.1
      · intro hmem
        exact ih _ _ h (List.mem_cons_of_mem _ hmem)
    · exact ih _ _ h

theorem dedupAux_nodup : ∀ (ws seen : List String), (dedupAux ws seen).Nodup := by
  intro ws
  induction ws with
  | nil => intro seen; exact List.nodup_nil
  | cons x xs ih =>
    intro seen
    unfold dedupAux
    split
    · refine List.nodup_cons.mpr ⟨?_, ih _⟩
      intro hmem
      exact dedupAux_not_mem_seen _ _ _ hmem (List.mem_cons_self _ _)
    · exact ih _

theorem uniqueWords_nodup (text : String) : (uniqueWords text).Nodup :=
  dedupAux_nodup _ _

theorem uniqueWords_fixed {text w : String} (h : w ∈ uniqueWords text) :
    pyLower w = w :=
  token_pyLower_fixed (dedupAux_subset _ _ _ h)

/-! ### Cache key injectivity -/

theorem allKey_inj {w w2 : String} (h : allKey w = allKey w2) : w = w2 := by
  unfold allKey at h
  have h2 := congrArg String.data h
  rw [String.data_append, String.data_append] at h2
  exact String.ext (List.append_cancel_left h2)

theorem singleKey_inj_of_fixed {w w2 : String} (h1 : pyLower w = w)
    (h2 : pyLower w2 = w2) (h : singleKey w 1 = singleKey w2 1) : w = w2 := by
  unfold singleKey at h
  rw [h1, h2] at h
  have h3 := congrArg String.data h
  rw [String.data_append, String.data_append, String.data_append,
    String.data_append] at h3
  exact String.ext
    (List.append_cancel_right (List.append_cancel_right h3))

theorem taskKey_inj_of_fixed (m : Bool) {w w2 : String} (h1 : pyLower w = w)
    (h2 : pyLower w2 = w2) (h : taskKey m w = taskKey m w2) : w = w2 := by
  cases m with
  | true => exact allKey_inj (by simpa [taskKey] using h)
  | false => exact singleKey_inj_of_fixed h1 h2 (by simpa [taskKey] using h)

/-! ### Task isolation: each resolution task touches only its own key -/

theorem lookup_word_writes (env : Env) (c : Cache) (w : String) (nr : Nat)
    (k : String) (hk : k ≠ singleKey w nr) :
    cacheFind (lookup_word env c w nr).2 k = cacheFind c k := by
  unfold lookup_word
  split
  · rfl
  · split
    · rfl
    · exact cacheFind_insert_ne _ _ _ _ hk

theorem lookup_all_writes (env : Env) (c : Cache) (w : String) (k : String)
    (hk : k ≠ allKey w) :
    cacheFind (lookup_word_all_meanings env c w).2 k = cacheFind c k := by
  unfold lookup_word_all_meanings
  split
  · rfl
  · split
    · rfl
    · split
      · exact cacheFind_insert_ne _ _ _ _ hk
      · exact cacheFind_insert_ne _ _ _ _ hk

theorem lookup_word_fst_key (env : Env) (c c2 : Cache) (w : String) (nr : Nat)
    (h : cacheFind c (singleKey w nr) = cacheFind c2 (singleKey w nr)) :
    (lookup_word env c w nr).1 = (lookup_word env c2 w nr).1 := by
  unfold lookup_word
  rw [h]
  cases cacheFind c2 (singleKey w nr) with
  | some v => rfl
  | none =>
    cases env (urlSingle w nr) with
    | error e => rfl
    | ok page => rfl

theorem lookup_all_fst_key (env : Env) (c c2 : Cache) (w : String)
    (h : cacheFind c (allKey w) = cacheFind c2 (allKey w)) :
    (lookup_word_all_meanings env c w).1 = (lookup_word_all_meanings env c2 w).1 := by
  unfold lookup_word_all_meanings
  rw [h]
  cases cacheFind c2 (allKey w) with
  | some v => rfl
  | none =>
    cases env (urlAll w) with
    | error e => rfl
    | ok page =>
      by_cases he : page.formsContainers.isEmpty <;> simp [he]

theorem wrapper_fst_key (env : Env) (m : Bool) (c c2 : Cache) (w : String)
    (h : cacheFind c (taskKey m w) = cacheFind c2 (taskKey m w)) :
    (lookup_word_wrapper env m c w).1 = (lookup_word_wrapper env m c2 w).1 := by
  cases m with
  | true =>
    have h2 := lookup_all_fst_key env c c2 w (by simpa [taskKey] using h)
    simp [lookup_word_wrapper, h2]
  | false =>
    have h2 := lookup_word_fst_key env c c2 w 1 (by simpa [taskKey] using h)
    simp only [lookup_word_wrapper, Bool.false_eq_true, if_false]
    rcases hL : lookup_word env c w 1 with ⟨v, cc⟩
    rcases hR : lookup_word env c2 w 1 with ⟨v2, cc2⟩
    rw [hL, hR] at h2
    simp only at h2
    subst h2
    cases v <;> rfl

theorem wrapper_writes (env : Env) (m : Bool) (c : Cache) (w : String)
    (k : String) (hk : k ≠ taskKey m w) :
    cacheFind (lookup_word_wrapper env m c w).2 k = cacheFind c k := by
  cases m with
  | true =>
    have h2 := lookup_all_writes env c w k (by simpa [taskKey] using hk)
    simpa [lookup_word_wrapper] using h2
  | false =>
    have h2 := lookup_word_writes env c w 1 k (by simpa [taskKey] using hk)
    simp only [lookup_word_wrapper, Bool.false_eq_true, if_false]
    rcases hL : lookup_word env c w 1 with ⟨v, cc⟩
    rw [hL] at h2
    simp only at h2
    cases v <;> simpa using h2

/-! ### The orchestrator's output is completion-order independent -/

theorem runTasks_canon (env : Env) (m : Bool) (c0 : Cache) :
    ∀ (order : List String) (c : Cache),
      order.Pairwise (fun a b => taskKey m a ≠ taskKey m b) →
      (∀ w ∈ order, cacheFind c (taskKey m w) = cacheFind c0 (taskKey m w)) →
      (runTasks env m order c).1 = order.filterMap (canonPair env m c0) := by
  intro order
  induction order with
  | nil => intro c _ _; rfl
  | cons w ws ih =>
    intro c hpw hagree
    obtain ⟨hhead, htail⟩ := List.pairwise_cons.mp hpw
    have hfst : (lookup_word_wrapper env m c w).1 = canonTask env m c0 w :=
      wrapper_fst_key env m c c0 w (hagree w (List.mem_cons_self _ _))
    have hagree2 : ∀ w2 ∈ ws,
        cacheFind (lookup_word_wrapper env m c w).2 (taskKey m w2)
          = cacheFind c0 (taskKey m w2) := by
      intro w2 hw2
      rw [wrapper_writes env m c w _ (fun he => hhead w2 hw2 he.symm)]
      exact hagree w2 (List.mem_cons_of_mem _ hw2)
    have hrest := ih ((lookup_word_wrapper env m c w).2) htail hagree2
    show addTask w (lookup_word_wrapper env m c w).1
        (runTasks env m ws (lookup_word_wrapper env m c w).2).1
      = List.filterMap (canonPair env m c0) (w :: ws)
    rw [hfst, hrest]
    cases hct : canonTask env m c0 w with
    | none =>
      rw [List.filterMap_cons_none (by simp [canonPair, hct])]
      simp [addTask]
    | some l =>
      cases he : l.isEmpty with
      | true =>
        rw [List.filterMap_cons_none (by simp [canonPair, hct, he])]
        simp [addTask, he]
      | false =>
        rw [List.filterMap_cons_some (by simp [canonPair, hct, he] : canonPair env m c0 w = some (w, l))]
        simp [addTask, he]

theorem dictFind_filterMap (env : Env) (m : Bool) (c0 : Cache) :
    ∀ (order : List String), order.Nodup → ∀ w,
      dictFind (order.filterMap (canonPair env m c0)) w
        = if w ∈ order then canonRes env m c0 w else none := by
  intro order
  induction order with
  | nil => intro _ w; simp [dictFind]
  | cons x xs ih =>
    intro hnd w
    have ihw := ih (List.nodup_cons.mp hnd).2 w
    cases hct : canonTask env m c0 x with
    | none =>
      rw [List.filterMap_cons_none (by simp [canonPair, hct]), ihw]
      by_cases hwx : w = x
      · subst hwx
        have hnot : w ∉ xs := (List.nodup_cons.mp hnd).1
        simp [hnot, canonRes, hct]
      · by_cases hmem : w ∈ xs <;> simp [hmem, hwx]
    | some l =>
      cases he : l.isEmpty with
      | true =>
        rw [List.filterMap_cons_none (by simp [canonPair, hct, he]), ihw]
        by_cases hwx : w = x
        · subst hwx
          have hnot : w ∉ xs := (List.nodup_cons.mp hnd).1
          simp [hnot, canonRes, hct, he]
        · by_cases hmem : w ∈ xs <;> simp [hmem, hwx]
      | false =>
        rw [List.filterMap_cons_some
          (by simp [canonPair, hct, he] : canonPair env m c0 x = some (x, l))]
        by_cases hwx : w = x
        · subst hwx
          simp [dictFind, List.find?_cons_of_pos, canonRes, hct, he]
        · have hne : ¬(((x, l).1 == w) = true) := by
            simp only
            exact fun hh => hwx (beq_iff_eq.mp hh).symm
          unfold dictFind
          rw [@List.find?_cons_of_neg _ (fun p => p.1 == w) (x, l)
            (List.filterMap (canonPair env m c0) xs) hne]
          unfold dictFind at ihw
          rw [ihw]
          by_cases hmem : w ∈ xs <;> simp [hmem, hwx]

/-! ### C3: the analysis output follows first-occurrence order -/

theorem analyze_text_canon (env : Env) (m : Bool) (c : Cache) (text : String)
    (order : List String) (hperm : order.Perm (uniqueWords text)) :
    (analyze_text env order c text m).1
      = (uniqueWords text).filterMap (canonWA env m c) := by
  have hnodup : order.Nodup := (hperm.nodup_iff).mpr (uniqueWords_nodup text)
  have hfix : ∀ w ∈ order, pyLower w = w := fun w hw =>
    uniqueWords_fixed (hperm.mem_iff.mp hw)
  have hpw : order.Pairwise (fun a b => taskKey m a ≠ taskKey m b) := by
    refine List.Pairwise.imp_of_mem ?_ hnodup
    intro a b ha hb hne he
    exact hne (taskKey_inj_of_fixed m (hfix a ha) (hfix b hb) he)
  have hrun := runTasks_canon env m c order c hpw (fun _ _ => rfl)
  have hform : (analyze_text env order c text m).1
      = (uniqueWords text).filterMap (fun w =>
          match dictFind (runTasks env m order c).1 w with
          | some l => some (WordAnalysis.mk w l (decide (1 < l.length)))
          | none => none) := rfl
  rw [hform, hrun]
  apply List.filterMap_congr
  intro w hw
  rw [dictFind_filterMap env m c order hnodup w,
    if_pos (hperm.mem_iff.mpr hw)]
  cases hcr : canonRes env m c w <;> simp [canonWA, hcr]

theorem canonWA_word (env : Env) (m : Bool) (c : Cache) (w : String)
    (wa : WordAnalysis) (h : canonWA env m c w = some wa) : wa.word = w := by
  unfold canonWA at h
  rcases Option.map_eq_some'.mp h with ⟨l, _, hwa⟩
  rw [← hwa]

theorem map_word_filterMap_nodup (env : Env) (m : Bool) (c : Cache) :
    ∀ (l : List String), l.Nodup →
      ((l.filterMap (canonWA env m c)).map (fun wa => wa.word)).Nodup := by
  intro l
  induction l with
  | nil => intro _; simp
  | cons x xs ih =>
    intro hnd
    cases hcw : canonWA env m c x with
    | none =>
      rw [List.filterMap_cons_none hcw]
      exact ih (List.nodup_cons.mp hnd).2
    | some wa =>
      rw [List.filterMap_cons_some hcw]
      simp only [List.map_cons]
      refine List.nodup_cons.mpr ⟨?_, ih (List.nodup_cons.mp hnd).2⟩
      intro hmem
      rcases List.mem_map.mp hmem with ⟨wb, hwb, hww⟩
      rcases List.mem_filterMap.mp hwb with ⟨a, ha, hca⟩
      have h1 : wa.word = x := canonWA_word _ _ _ _ _ hcw
      have h2 : wb.word = a := canonWA_word _ _ _ _ _ hca
      rw [h2, h1] at hww
      exact (List.nodup_cons.mp hnd).1 (hww ▸ ha)

/-- C3: for every text, environment, initial cache and mode, and for every
task-completion order (any permutation of the deduplicated token list), the
analysis output equals the canonical reassembly: exactly the deduplicated
lowercase tokens of length at least 2 (first occurrence kept) that produced
results, as a `filterMap` over the tokenizer's first-occurrence list — hence
independent of the completion order — and its word column has no
duplicates. -/
theorem c3_analysis_follows_token_order (env : Env) (m : Bool) (c : Cache)
    (text : String) (order : List String)
    (hperm : order.Perm (uniqueWords text)) :
    (analyze_text env order c text m).1
      = (uniqueWords text).filterMap (canonWA env m c) ∧
    ((analyze_text env order c text m).1.map (fun wa => wa.word)).Nodup := by
  have h := analyze_text_canon env m c text order hperm
  refine ⟨h, ?_⟩
  rw [h]
  exact map_word_filterMap_nodup env m c _ (uniqueWords_nodup text)

theorem c3_analysis_follows_token_order_witness :
    (["divisa", "omnis", "est", "gallia"] : List String).Perm
        (uniqueWords "Gallia est omnis divisa") ∧
    ((analyze_text envAllRosa ["divisa", "omnis", "est", "gallia"] []
          "Gallia est omnis divisa" true).1
        = (uniqueWords "Gallia est omnis divisa").filterMap
            (canonWA envAllRosa true []) ∧
      ((analyze_text envAllRosa ["divisa", "omnis", "est", "gallia"] []
          "Gallia est omnis divisa" true).1.map (fun wa => wa.word)).Nodup) :=
  ⟨by decide,
   c3_analysis_follows_token_order envAllRosa true [] "Gallia est omnis divisa"
     ["divisa", "omnis", "est", "gallia"] (by decide)⟩

/-! ### C9: the orchestrator emits only found records -/

theorem canonTask_found (env : Env) (m : Bool) (c : Cache) (w : String)
    (l : List LookupRecord) (hct : canonTask env m c w = some l)
    (hwf : m = true → AllWF c) : ∀ r ∈ l, r.found = true := by
  cases m with
  | true =>
    have hA := hwf rfl
    unfold canonTask lookup_word_wrapper at hct
    simp only [if_true] at hct
    injection hct with h1
    rw [← h1]
    unfold lookup_word_all_meanings
    cases hcf : cacheFind c (allKey w) with
    | some v =>
      rcases hA w v hcf with ⟨l2, rfl, hfound⟩
      intro r hr
      exact hfound r hr
    | none =>
      cases henv : env (urlAll w) with
      | error e => intro r hr; cases hr
      | ok page =>
        by_cases hemp : page.formsContainers.isEmpty = true
        · simp only [hemp, if_true]
          intro r hr
          cases hr
        · simp only [hemp, if_false]
          intro r hr
          exact (List.mem_filter.mp hr).2
  | false =>
    unfold canonTask lookup_word_wrapper at hct
    simp only [Bool.false_eq_true, if_false] at hct
    rcases hL : lookup_word env c w 1 with ⟨v, cc⟩
    rw [hL] at hct
    cases v with
    | many l2 => simp at hct
    | single r =>
      simp only at hct
      injection hct with h1
      rw [← h1]
      by_cases hfnd : r.found = true
      · rw [if_pos hfnd]
        intro r2 hr2
        rcases List.mem_singleton.mp hr2 with rfl
        exact hfnd
      · rw [if_neg hfnd]
        intro r2 hr2
        cases hr2

/-- C9: every `WordAnalysis` the orchestrator emits has a non-empty meaning
sequence consisting only of `found=true` records — in all-meanings mode
(assuming the well-formedness invariant of the cache's `all` entries, which
every cache this program builds satisfies) because the all-meanings path
filters to found records, and in single-lookup mode (`nr` defaulting to 1)
because the record is wrapped into a singleton only when `found=true`; a word
whose record sequence is empty is omitted. -/
theorem c9_only_found_records (env : Env) (m : Bool) (c : Cache) (text : String)
    (order : List String) (hperm : order.Perm (uniqueWords text))
    (hwf : m = true → AllWF c) :
    ∀ wa ∈ (analyze_text env order c text m).1,
      wa.meanings ≠ [] ∧ ∀ r ∈ wa.meanings, r.found = true := by
  intro wa hwa
  rw [analyze_text_canon env m c text order hperm] at hwa
  rcases List.mem_filterMap.mp hwa with ⟨w, _, hcw⟩
  unfold canonWA at hcw
  rcases Option.map_eq_some'.mp hcw with ⟨l, hres, hwa2⟩
  have hmean : wa.meanings = l := by rw [← hwa2]
  unfold canonRes at hres
  cases hct : canonTask env m c w with
  | none => rw [hct] at hres; cases hres
  | some l2 =>
    rw [hct] at hres
    have hres2 : (if l2.isEmpty = true then none else some l2) = some l := hres
    by_cases hle : l2.isEmpty = true
    · rw [if_pos hle] at hres2; cases hres2
    · rw [if_neg hle] at hres2
      injection hres2 with h3
      constructor
      · rw [hmean, ← h3]
        intro hnil
        rw [hnil] at hle
        exact hle rfl
      · rw [hmean, ← h3]
        exact canonTask_found env m c w l2 hct hwf

theorem c9_only_found_records_witness :
    (["est", "gallia"] : List String).Perm (uniqueWords "Gallia est") ∧
    (true = true → AllWF []) ∧
    ∀ wa ∈ (analyze_text envAllRosa ["est", "gallia"] [] "Gallia est" true).1,
      wa.meanings ≠ [] ∧ ∀ r ∈ wa.meanings, r.found = true :=
  ⟨by decide, fun _ w v h => Option.noConfusion h,
   c9_only_found_records envAllRosa true [] "Gallia est" ["est", "gallia"]
     (by decide) (fun _ w v h => Option.noConfusion h)⟩

/-! ### C4: cache-evolution stability of the lemma resolver -/

theorem lookup_all_fst_eq (env : Env) (c : Cache) (y : String) :
    (lookup_word_all_meanings env c y).1
      = match cacheFind c (allKey y) with
        | some v => asMany v
        | none => allMissResult env y := by
  unfold lookup_word_all_meanings allMissResult
  cases cacheFind c (allKey y) with
  | some v => rfl
  | none =>
    cases env (urlAll y) with
    | error e => rfl
    | ok page => by_cases h : page.formsContainers.isEmpty = true <;> simp [h]

theorem evolvedC_refl (env : Env) (c0 : Cache) : EvolvedC env c0 c0 :=
  fun _ => Or.inl rfl

theorem lookup_all_stable (env : Env) (c0 c : Cache) (y : String)
    (h : EvolvedC env c0 c) :
    (lookup_word_all_meanings env c y).1 = (lookup_word_all_meanings env c0 y).1 ∧
    EvolvedC env c0 (lookup_word_all_meanings env c y).2 := by
  constructor
  · rw [lookup_all_fst_eq env c y, lookup_all_fst_eq env c0 y]
    rcases h (allKey y) with heq | ⟨hnone, y2, hkey, hval⟩
    · rw [heq]
    · have hy : y2 = y := allKey_inj hkey.symm
      subst hy
      rw [hnone, hval]
      rfl
  · cases hcf : cacheFind c (allKey y) with
    | some v =>
      have h2 : (lookup_word_all_meanings env c y).2 = c := by
        unfold lookup_word_all_meanings
        rw [hcf]
      rw [h2]
      exact h
    | none =>
      cases henv : env (urlAll y) with
      | error e =>
        have h2 : (lookup_word_all_meanings env c y).2 = c := by
          unfold lookup_word_all_meanings
          rw [hcf, henv]
        rw [h2]
        exact h
      | ok page =>
        have h2 : (lookup_word_all_meanings env c y).2
            = cacheInsert c (allKey y) (CacheValue.many (allMissResult env y)) := by
          unfold lookup_word_all_meanings allMissResult
          rw [hcf, henv]
          by_cases hemp : page.formsContainers.isEmpty = true <;> simp [hemp]
        rw [h2]
        intro k
        by_cases hk : k = allKey y
        · subst hk
          right
          have hc0 : cacheFind c0 (allKey y) = none := by
            rcases h (allKey y) with heq | ⟨hnone, _, _, _⟩
            · rw [← heq]; exact hcf
            · exact hnone
          exact ⟨hc0, y, rfl, by rw [cacheFind_insert_self]⟩
        · rw [cacheFind_insert_ne _ _ _ _ hk]
          exact h k

theorem get_lemmas_cached_eq (env : Env) (cachedA : Option TextAnalysis)
    (c : Cache) (w : String) (item : WordAnalysis)
    (ht : analysisTruthy cachedA = true)
    (hfind : (cachedA.getD []).find? (fun i => i.word == w) = some item) :
    get_lemmas env cachedA c w
      = (insert (normalize w) (lemmasOfMeanings item.meanings), c) := by
  unfold get_lemmas
  rw [if_pos ht, hfind]

theorem get_lemmas_fresh_eq (env : Env) (cachedA : Option TextAnalysis)
    (c : Cache) (w : String)
    (hmiss : analysisTruthy cachedA = false ∨
      (cachedA.getD []).find? (fun i => i.word == w) = none) :
    get_lemmas env cachedA c w = get_lemmas_fresh env c w := by
  unfold get_lemmas
  rcases hmiss with hf | hfind
  · rw [if_neg (by simp [hf])]
  · by_cases ht : analysisTruthy cachedA = true
    · rw [if_pos ht, hfind]
    · rw [if_neg ht]

theorem get_lemmas_stable (env : Env) (cachedA : Option TextAnalysis)
    (c0 c : Cache) (w : String) (h : EvolvedC env c0 c) :
    (get_lemmas env cachedA c w).1 = specLemmas env cachedA c0 w ∧
    EvolvedC env c0 (get_lemmas env cachedA c w).2 := by
  by_cases ht : analysisTruthy cachedA = true
  · cases hfind : (cachedA.getD []).find? (fun item => item.word == w) with
    | some item =>
      rw [get_lemmas_cached_eq env cachedA c w item ht hfind]
      unfold specLemmas
      rw [get_lemmas_cached_eq env cachedA c0 w item ht hfind]
      exact ⟨rfl, h⟩
    | none =>
      rw [get_lemmas_fresh_eq env cachedA c w (Or.inr hfind)]
      unfold specLemmas
      rw [get_lemmas_fresh_eq env cachedA c0 w (Or.inr hfind)]
      unfold get_lemmas_fresh
      obtain ⟨hfst, hsnd⟩ := lookup_all_stable env c0 c (pyLower w) h
      exact ⟨by rw [hfst], hsnd⟩
  · have ht2 : analysisTruthy cachedA = false := by simpa using ht
    rw [get_lemmas_fresh_eq env cachedA c w (Or.inl ht2)]
    unfold specLemmas
    rw [get_lemmas_fresh_eq env cachedA c0 w (Or.inl ht2)]
    unfold get_lemmas_fresh
    obtain ⟨hfst, hsnd⟩ := lookup_all_stable env c0 c (pyLower w) h
    exact ⟨by rw [hfst], hsnd⟩

/-! ### C4: the memo holds only canonical lemma sets -/

theorem find?_map_word (g : WordAnalysis → Finset String) (l : TextAnalysis)
    (t : String) :
    List.find? (fun p => p.1 == t) (l.map (fun item => (item.word, g item)))
      = (List.find? (fun item => item.word == t) l).map
          (fun item => (item.word, g item)) := by
  induction l with
  | nil => rfl
  | cons x xs ih =>
    simp only [List.map_cons, List.find?_cons]
    cases hx : (x.word == t) <;> simp [hx, ih]

theorem initMemo_ok (env : Env) (cachedA : Option TextAnalysis) (c0 : Cache) :
    MemoOK env cachedA c0 (initMemo cachedA) := by
  intro t S hf
  unfold initMemo at hf
  by_cases ht : analysisTruthy cachedA = true
  · rw [if_pos ht] at hf
    unfold memoFind at hf
    rw [find?_map_word] at hf
    cases hfind : (cachedA.getD []).find? (fun item => item.word == t) with
    | none => rw [hfind] at hf; cases hf
    | some item =>
      rw [hfind] at hf
      simp only [Option.map_map, Option.map_some'] at hf
      have hword : item.word = t := by
        have := List.find?_some hfind
        exact beq_iff_eq.mp this
      have hS : S = insert (normalize item.word) (lemmasOfMeanings item.meanings) := by
        injection hf with h1
        rw [← h1]
      unfold specLemmas
      rw [get_lemmas_cached_eq env cachedA c0 t item ht hfind, hS, hword]
  · rw [if_neg ht] at hf
    cases hf

theorem memoOK_cons (env : Env) (cachedA : Option TextAnalysis) (c0 : Cache)
    (memo : Memo) (t : String) (hm : MemoOK env cachedA c0 memo) :
    MemoOK env cachedA c0 ((t, specLemmas env cachedA c0 t) :: memo) := by
  intro t2 S2 hf
  unfold memoFind at hf
  by_cases hx : t = t2
  · subst hx
    rw [List.find?_cons_of_pos _ (by simp)] at hf
    simp only [Option.map_some'] at hf
    injection hf with h1
    rw [← h1]
  · rw [List.find?_cons_of_neg _ (by simp [beq_iff_eq]; exact fun hh => hx hh)] at hf
    exact hm t2 S2 hf

/-! ### C4: the scan computes the reference positions -/

theorem scanTokens_spec (env : Env) (cachedA : Option TextAnalysis) (c0 : Cache)
    (L : Finset String) :
    ∀ (toks : List String) (i : Nat) (memo : Memo) (c : Cache),
      MemoOK env cachedA c0 memo → EvolvedC env c0 c →
      (scanTokens env cachedA L toks i memo c).1
          = specPositions env cachedA c0 L toks i ∧
      MemoOK env cachedA c0 (scanTokens env cachedA L toks i memo c).2.1 ∧
      EvolvedC env c0 (scanTokens env cachedA L toks i memo c).2.2 := by
  intro toks
  induction toks with
  | nil => intro i memo c hm hc; exact ⟨rfl, hm, hc⟩
  | cons t ts ih =>
    intro i memo c hm hc
    have hstep : (resolveTok env cachedA memo c t).1 = specLemmas env cachedA c0 t ∧
        MemoOK env cachedA c0 (resolveTok env cachedA memo c t).2.1 ∧
        EvolvedC env c0 (resolveTok env cachedA memo c t).2.2 := by
      unfold resolveTok
      cases hf : memoFind memo t with
      | some S => exact ⟨hm t S hf, hm, hc⟩
      | none =>
        obtain ⟨h1, h2⟩ := get_lemmas_stable env cachedA c0 c t hc
        refine ⟨h1, ?_, h2⟩
        rw [h1]
        exact memoOK_cons env cachedA c0 memo t hm
    obtain ⟨hS, hm1, hc1⟩ := hstep
    obtain ⟨hrest1, hrest2, hrest3⟩ :=
      ih (i + 1) (resolveTok env cachedA memo c t).2.1
        (resolveTok env cachedA memo c t).2.2 hm1 hc1
    refine ⟨?_, hrest2, hrest3⟩
    show (if (L ∩ (resolveTok env cachedA memo c t).1).Nonempty
        then i :: (scanTokens env cachedA L ts (i + 1)
            (resolveTok env cachedA memo c t).2.1
            (resolveTok env cachedA memo c t).2.2).1
        else (scanTokens env cachedA L ts (i + 1)
            (resolveTok env cachedA memo c t).2.1
            (resolveTok env cachedA memo c t).2.2).1)
      = specPositions env cachedA c0 L (t :: ts) i
    rw [hS, hrest1]
    rfl

theorem specPositions_eq (env : Env) (cachedA : Option TextAnalysis)
    (c0 : Cache) (L : Finset String) :
    ∀ (toks : List String) (i : Nat),
      specPositions env cachedA c0 L toks i
        = (List.range toks.length).filterMap (fun j =>
            if (L ∩ specLemmas env cachedA c0 (toks.getD j "")).Nonempty
            then some (j + i) else none) := by
  intro toks
  induction toks with
  | nil => intro i; rfl
  | cons t ts ih =>
    intro i
    rw [show (t :: ts).length = ts.length + 1 from rfl, List.range_succ_eq_map]
    by_cases h0 : (L ∩ specLemmas env cachedA c0 t).Nonempty
    · rw [List.filterMap_cons_some (show _ = some i by
        simp only [List.getD_cons_zero, if_pos h0, Nat.zero_add])]
      rw [List.filterMap_map]
      unfold specPositions
      rw [if_pos h0, ih (i + 1)]
      congr 1
      apply List.filterMap_congr
      intro j hj
      simp only [Function.comp, List.getD_cons_succ]
      by_cases hc : (L ∩ specLemmas env cachedA c0 (ts.getD j "")).Nonempty
      · rw [if_pos hc, if_pos hc]
        exact congrArg some (by omega)
      · rw [if_neg hc, if_neg hc]
    · rw [List.filterMap_cons_none (by
        simp only [List.getD_cons_zero, if_neg h0])]
      rw [List.filterMap_map]
      unfold specPositions
      rw [if_neg h0, ih (i + 1)]
      apply List.filterMap_congr
      intro j hj
      simp only [Function.comp, List.getD_cons_succ]
      by_cases hc : (L ∩ specLemmas env cachedA c0 (ts.getD j "")).Nonempty
      · rw [if_pos hc, if_pos hc]
        exact congrArg some (by omega)
      · rw [if_neg hc, if_neg hc]

theorem freqLoop_spec (env : Env) (cachedA : Option TextAnalysis) (c0 : Cache)
    (toks : List String) :
    ∀ (sws : List String) (memo : Memo) (c : Cache),
      MemoOK env cachedA c0 memo → EvolvedC env c0 c →
      (freqLoop env cachedA toks sws memo c).1
        = sws.map (freqSpec env cachedA c0 toks) := by
  intro sws
  induction sws with
  | nil => intro memo c _ _; rfl
  | cons sw sws2 ih =>
    intro memo c hm hc
    obtain ⟨hL, hc1⟩ := get_lemmas_stable env cachedA c0 c sw hc
    obtain ⟨hpos, hm2, hc2⟩ := scanTokens_spec env cachedA c0
      ((get_lemmas env cachedA c sw).1) toks 1 memo
      ((get_lemmas env cachedA c sw).2) hm hc1
    have hrest := ih (scanTokens env cachedA (get_lemmas env cachedA c sw).1
        toks 1 memo (get_lemmas env cachedA c sw).2).2.1
      (scanTokens env cachedA (get_lemmas env cachedA c sw).1
        toks 1 memo (get_lemmas env cachedA c sw).2).2.2 hm2 hc2
    show ({ search_word := sw
            lemmas := (get_lemmas env cachedA c sw).1
            positions := (scanTokens env cachedA (get_lemmas env cachedA c sw).1
                toks 1 memo (get_lemmas env cachedA c sw).2).1
            count := (scanTokens env cachedA (get_lemmas env cachedA c sw).1
                toks 1 memo (get_lemmas env cachedA c sw).2).1.length } :
          FreqEntry) ::
        (freqLoop env cachedA toks sws2
            (scanTokens env cachedA (get_lemmas env cachedA c sw).1
                toks 1 memo (get_lemmas env cachedA c sw).2).2.1
            (scanTokens env cachedA (get_lemmas env cachedA c sw).1
                toks 1 memo (get_lemmas env cachedA c sw).2).2.2).1
      = (sw :: sws2).map (freqSpec env cachedA c0 toks)
    rw [List.map_cons, hrest, hpos, hL, specPositions_eq]
    rfl

/-- C4: the word-frequency operation returns, per search word, exactly the
reference frequency entry: the search word's lemma set, the ordered list of
1-based positions whose token's lemma set intersects it, a count equal to
that list's length; and `total_words` equal to the length of the full
non-deduplicated token sequence.  The `AnalysisNodup` hypothesis delimits the
states on which the memo model is exactly faithful to Python's dict
initialization (analyses produced by this program never contain duplicate
words, see `c3_analysis_follows_token_order`). -/
theorem c4_word_frequency_matches_spec (env : Env) (st : AppState)
    (rawText : String) (sws : List String) (cachedA : Option TextAnalysis)
    (toks : List String)
    (hA : cachedA = analysisFind st.analysisCache
      (get_text_hash (preprocess_text rawText)))
    (htoks : toks = pyFindallWords (pyLower (preprocess_text rawText)))
    (hnd : AnalysisNodup cachedA) :
    (api_word_frequency env st (some (rawText, sws))).1
      = Except.ok { total_words := toks.length
                    word_data := sws.map (freqSpec env cachedA st.wordCache toks) } := by
  subst hA htoks
  have hform : (api_word_frequency env st (some (rawText, sws))).1
      = Except.ok
          { total_words := (pyFindallWords (pyLower (preprocess_text rawText))).length
            word_data := (freqLoop env
                (analysisFind st.analysisCache (get_text_hash (preprocess_text rawText)))
                (pyFindallWords (pyLower (preprocess_text rawText)))
                sws
                (initMemo (analysisFind st.analysisCache
                  (get_text_hash (preprocess_text rawText))))
                st.wordCache).1 } := rfl
  rw [hform,
    freqLoop_spec env _ st.wordCache _ sws _ st.wordCache
      (initMemo_ok env _ st.wordCache) (evolvedC_refl env st.wordCache)]

theorem c4_word_frequency_matches_spec_witness :
    (some anaPuella = analysisFind stFreq.analysisCache
        (get_text_hash (preprocess_text "puella puellam rosa"))) ∧
    ((["puella", "puellam", "rosa"] : List String)
        = pyFindallWords (pyLower (preprocess_text "puella puellam rosa"))) ∧
    AnalysisNodup (some anaPuella) ∧
    (freqSpec envFail (some anaPuella) stFreq.wordCache
        ["puella", "puellam", "rosa"] "puella").positions = [1, 2] ∧
    (freqSpec envFail (some anaPuella) stFreq.wordCache
        ["puella", "puellam", "rosa"] "puella").count = 2 ∧
    (api_word_frequency envFail stFreq (some ("puella puellam rosa", ["puella"]))).1
      = Except.ok { total_words := (["puella", "puellam", "rosa"] : List String).length
                    word_data := ["puella"].map (freqSpec envFail (some anaPuella)
                      stFreq.wordCache ["puella", "puellam", "rosa"]) } :=
  ⟨by decide, by decide, by unfold AnalysisNodup; decide, by decide, by decide,
   c4_word_frequency_matches_spec envFail stFreq "puella puellam rosa" ["puella"]
     (some anaPuella) ["puella", "puellam", "rosa"]
     (by decide) (by decide) (by unfold AnalysisNodup; decide)⟩

end Verbum